import Mathlib

/-!
Verification of `sales_data_analysis.py` (SalesDataAnalyzer).

This file gives a shallow embedding of the sales-report pipeline:
the cleaning stage (`load_and_clean_data`), the aggregation stage
(`analyze_data`), the report renderer (`generate_word_report`), the
notifier (`send_email_with_report`) and the environment-configured
branch of `main`, together with theorems settling the specification
claims about them.

Modelling conventions:
* pandas floating-point numbers are modelled as exact rationals `ℚ`;
  `NaN` cells are modelled as `none : Option ℚ`.
* Python's `round` and pandas' `.round(2)` round half to even; this is
  `pythonRound` below.
* A pandas DataFrame is a `List` of row structures; the row order of the
  list is the row order of the frame.
-/

namespace SalesAnalysis

/-! ### Rounding: Python `round` / numpy half-to-even -/

/-- Python's builtin `round` on a rational (round half to even), used by the
quantity-imputation step (`round(avg_qty)`) and, scaled by 100, by
pandas' `.round(2)`. -/
def pythonRound (q : ℚ) : ℤ :=
  if q - ⌊q⌋ < 1/2 then ⌊q⌋
  else if 1/2 < q - ⌊q⌋ then ⌊q⌋ + 1
  else if ⌊q⌋ % 2 = 0 then ⌊q⌋ else ⌊q⌋ + 1

/-- pandas' `.round(2)`: round half to even at two decimal places. -/
def round2 (q : ℚ) : ℚ := (pythonRound (q * 100) : ℚ) / 100

/-! ### Calendar dates

`pd.to_datetime` parses the `Date` column; the data this script ingests
renders dates as `YYYY-MM-DD` (the scientific-notation defect is repaired to
the literal `'2025-09-22'` beforehand), so the parser is modelled on that
format, failing (like `to_datetime`) on anything unparseable or invalid. -/

structure Date where
  year : ℕ
  month : ℕ
  day : ℕ
deriving DecidableEq

def isLeap (y : ℕ) : Bool := (y % 4 = 0 && y % 100 != 0) || y % 400 = 0

def daysInMonth (y m : ℕ) : ℕ :=
  if m = 2 then (if isLeap y then 29 else 28)
  else if m = 4 ∨ m = 6 ∨ m = 9 ∨ m = 11 then 30
  else 31

def digitVal (c : Char) : Option ℕ :=
  if c.isDigit then some (c.toNat - 48) else none

def parseDate (s : String) : Option Date :=
  match s.data with
  | [y1, y2, y3, y4, '-', m1, m2, '-', d1, d2] =>
    match digitVal y1, digitVal y2, digitVal y3, digitVal y4,
          digitVal m1, digitVal m2, digitVal d1, digitVal d2 with
    | some a, some b, some c, some d, some e, some f, some g, some h =>
      let y := a * 1000 + b * 100 + c * 10 + d
      let m := e * 10 + f
      let dy := g * 10 + h
      if 1 ≤ m ∧ m ≤ 12 ∧ 1 ≤ dy ∧ dy ≤ daysInMonth y m then
        some ⟨y, m, dy⟩
      else none
    | _, _, _, _, _, _, _, _ => none
  | _ => none

/-- Chronological order on dates (lexicographic year/month/day). -/
def dateLe (a b : Date) : Bool :=
  a.year < b.year ||
  (a.year = b.year && (a.month < b.month ||
    (a.month = b.month && a.day ≤ b.day)))

/-- `Series.min` on the Date column: `none` on an empty column (pandas `NaT`). -/
def dateMin (l : List Date) : Option Date :=
  l.foldl (fun acc d => match acc with
    | none => some d
    | some m => some (if dateLe m d then m else d)) none

/-- `Series.max` on the Date column: `none` on an empty column (pandas `NaT`). -/
def dateMax (l : List Date) : Option Date :=
  l.foldl (fun acc d => match acc with
    | none => some d
    | some m => some (if dateLe d m then m else d)) none

/-- Sakamoto's day-of-week algorithm: 0 = Sunday. -/
def dayOfWeek (dt : Date) : ℕ :=
  let t := [0, 3, 2, 5, 0, 3, 5, 1, 4, 6, 2, 4]
  let y := if dt.month < 3 then dt.year - 1 else dt.year
  (y + y / 4 - y / 100 + y / 400 + t.getD (dt.month - 1) 0 + dt.day) % 7

/-- ISO weekday, Monday = 1 .. Sunday = 7. -/
def isoWeekday (dt : Date) : ℕ := (dayOfWeek dt + 6) % 7 + 1

def dayOfYear (dt : Date) : ℕ :=
  (List.range (dt.month - 1)).foldl (fun a i => a + daysInMonth dt.year (i + 1)) 0
    + dt.day

def isoWeeksInYear (y : ℕ) : ℕ :=
  let j := isoWeekday ⟨y, 1, 1⟩
  if j = 4 ∨ (isLeap y ∧ j = 3) then 53 else 52

/-- ISO-8601 week number, as `Series.dt.isocalendar().week`. -/
def isoWeek (dt : Date) : ℕ :=
  let w := (10 + dayOfYear dt - isoWeekday dt) / 7
  if w = 0 then isoWeeksInYear (dt.year - 1)
  else if w = 53 ∧ isoWeeksInYear dt.year = 52 then 1
  else w

/-! ### String helpers from the source -/

/-- `Series.str.contains('E\+')`: does the string contain `"E+"`? -/
def hasEPlus : List Char → Bool
  | 'E' :: '+' :: _ => true
  | _ :: cs => hasEPlus cs
  | [] => false

/-- Python `str.title()` (ASCII model): the first letter of every run of
letters is uppercased, the rest lowercased. -/
def titleChars : List Char → Bool → List Char
  | [], _ => []
  | c :: cs, prevAlpha =>
    (if c.isAlpha then (if prevAlpha then c.toLower else c.toUpper) else c)
      :: titleChars cs c.isAlpha

def titleCase (s : String) : String := ⟨titleChars s.data false⟩

/-- Is `".csv"` a prefix here? (The pattern of `str.replace('.csv', …)`.) -/
def csvAt (c : Char) (cs : List Char) : Prop :=
  c = '.' ∧ cs.take 3 = ['c', 's', 'v']

instance (c : Char) (cs : List Char) : Decidable (csvAt c cs) := by
  unfold csvAt; infer_instance

/-- `str.replace('.csv', '_sales_report.docx')` on the char list: every
occurrence of `".csv"` is replaced, left to right, non-overlapping. -/
def replaceCsv : List Char → List Char
  | [] => []
  | c :: cs =>
    if csvAt c cs then
      ('_' :: "sales_report.docx".data) ++
        (match cs with
          | _ :: _ :: _ :: rest => replaceCsv rest
          | _ => [])
    else c :: replaceCsv cs

/-- Does the char list contain the substring `".csv"`? -/
def hasCsv : List Char → Bool
  | [] => false
  | c :: cs => if csvAt c cs then true else hasCsv cs

/-- The report path of `generate_word_report`:
`csv_file_path.replace('.csv', '_sales_report.docx')`. -/
def docxPath (s : String) : String := ⟨replaceCsv s.data⟩

/-- Characters allowed in the local part of
`r'^[a-zA-Z0-9._%+-]+@[a-zA-Z0-9.-]+\.[a-zA-Z]{2,}$'`. -/
def localChar (c : Char) : Bool :=
  c.isAlpha || c.isDigit || c = '.' || c = '_' || c = '%' || c = '+' || c = '-'

/-- Characters allowed in the domain part of the address pattern. -/
def domainChar (c : Char) : Bool :=
  c.isAlpha || c.isDigit || c = '.' || c = '-'

/-- `re.match(email_pattern, s)` from `main`: the string decomposes as
`local '@' domain '.' tld` with a non-empty local part of `localChar`s, a
non-empty domain of `domainChar`s and a tld of at least two letters.
`i` is the position of the `'@'`, `j` the position of the final-checked dot. -/
def emailMatch (s : String) : Bool :=
  let cs := s.data
  (List.range cs.length).any fun i =>
    (List.range cs.length).any fun j =>
      decide (1 ≤ i) && decide (i + 2 ≤ j) && decide (j + 3 ≤ cs.length) &&
      decide (cs[i]? = some '@') && decide (cs[j]? = some '.') &&
      (cs.take i).all localChar &&
      ((cs.drop (i + 1)).take (j - i - 1)).all domainChar &&
      (cs.drop (j + 1)).all (fun c => c.isAlpha)

/-- Python `str.strip()` whitespace model. -/
def isSpaceChar (c : Char) : Bool :=
  c = ' ' || c = '\t' || c = '\n' || c = '\r'

def trimStr (s : String) : String :=
  ⟨((s.data.dropWhile isSpaceChar).reverse.dropWhile isSpaceChar).reverse⟩

def splitCommaGo : List Char → List Char → List (List Char)
  | [], acc => [acc.reverse]
  | ',' :: cs, acc => acc.reverse :: splitCommaGo cs []
  | c :: cs, acc => splitCommaGo cs (c :: acc)

/-- `[email.strip() for email in recipient_email.split(',') if email.strip()]`. -/
def splitRecipients (s : String) : List String :=
  ((splitCommaGo s.data []).map (fun cs => trimStr ⟨cs⟩)).filter (fun t => t ≠ "")

/-! ### The transaction table

`RawRow` is a row of the CSV as loaded (`Date` still a string, blank cells
`none`); `Row` is a row after `pd.to_datetime` has parsed the date column. -/

structure RawRow where
  orderID : String
  date : String
  productID : String
  productName : String
  category : String
  region : String
  salesperson : Option String
  quantity : Option ℚ
  unitPrice : ℚ
  totalPrice : Option ℚ
deriving DecidableEq

structure Row where
  orderID : String
  date : Date
  productID : String
  productName : String
  category : String
  region : String
  salesperson : Option String
  quantity : Option ℚ
  unitPrice : ℚ
  totalPrice : Option ℚ
deriving DecidableEq

/-! ### The cleaning stage (`load_and_clean_data`), rule by rule -/

/-- Rule 1, date repair: rows whose `Date` contains `"E+"` get the fallback
date string `'2025-09-22'`. -/
def fixDates (t : List RawRow) : List RawRow :=
  t.map fun r => if hasEPlus r.date.data then {r with date := "2025-09-22"} else r

/-- Rule 2: `pd.to_datetime` on the whole column; any unparseable value
fails the conversion (and the run). -/
def parseRows : List RawRow → Option (List Row)
  | [] => some []
  | r :: rs =>
    match parseDate r.date with
    | none => none
    | some d =>
      match parseRows rs with
      | none => none
      | some rows => some
          ({ orderID := r.orderID, date := d, productID := r.productID,
             productName := r.productName, category := r.category,
             region := r.region, salesperson := r.salesperson,
             quantity := r.quantity, unitPrice := r.unitPrice,
             totalPrice := r.totalPrice } :: rows)

/-- Rule 3, text normalization: `str.title()` on Category, ProductName and
Salesperson (a missing Salesperson stays missing). -/
def normalizeText (t : List Row) : List Row :=
  t.map fun r =>
    { r with category := titleCase r.category,
             productName := titleCase r.productName,
             salesperson := r.salesperson.map titleCase }

/-- Rule 4, invalid-row removal: drop rows with `ProductID == 'P0000'`. -/
def dropInvalidProducts (t : List Row) : List Row :=
  t.filter fun r => r.productID ≠ "P0000"

/-- The non-missing quantities of all rows of product `pid`
(`df[(df.ProductID == pid) & (df.Quantity.notna())]['Quantity']`). -/
def sameProductQuantities (t : List Row) (pid : String) : List ℚ :=
  t.filterMap fun s => if s.productID = pid then s.quantity else none

/-- `round(avg_qty)` for product `pid` over the current table state. -/
def imputeValue (t : List Row) (pid : String) : ℚ :=
  let qs := sameProductQuantities t pid
  ((pythonRound (qs.sum / qs.length) : ℤ) : ℚ)

/-- One iteration of the imputation loop body: mean the non-missing
same-product quantities of the *current* table and overwrite row `i`;
an all-NaN mean (`pd.isna(avg_qty)`) leaves the row untouched. -/
def imputeStep (t : List Row) (i : ℕ) : List Row :=
  match t[i]? with
  | none => t
  | some r =>
    if sameProductQuantities t r.productID = [] then t
    else t.set i {r with quantity := some (imputeValue t r.productID)}

/-- `self.cleaned_df[missing_qty].index`: the positions with a missing
quantity, computed once, in ascending order. -/
def missingIdx (t : List Row) : List ℕ :=
  (List.range t.length).filter fun i =>
    match t[i]? with
    | some r => r.quantity.isNone
    | none => false

/-- Rule 5, quantity imputation: the sequential, mutating loop of
`load_and_clean_data`. -/
def imputeQuantities (t : List Row) : List Row :=
  (missingIdx t).foldl imputeStep t

/-- Rule 6, total recompute: `TotalPrice = Quantity * UnitPrice`
unconditionally (NaN quantity gives NaN total). -/
def recomputeTotals (t : List Row) : List Row :=
  t.map fun r => {r with totalPrice := r.quantity.map (fun q => q * r.unitPrice)}

/-- Rule 7, salesperson fallback: missing or empty `Salesperson` becomes
`'Unknown'`. -/
def fixSalesperson (t : List Row) : List Row :=
  t.map fun r =>
    if r.salesperson = none ∨ r.salesperson = some "" then
      {r with salesperson := some "Unknown"}
    else r

/-- The table state right before the imputation loop runs (rules 1–4). -/
def preImputeTable (t : List RawRow) : Option (List Row) :=
  (parseRows (fixDates t)).map fun rows => dropInvalidProducts (normalizeText rows)

/-- The whole cleaning stage `load_and_clean_data` (rules 1–7);
`none` models the run aborting on an unparseable date. -/
def cleanTable (t : List RawRow) : Option (List Row) :=
  (preImputeTable t).map fun mid =>
    fixSalesperson (recomputeTotals (imputeQuantities mid))

/-! ### The imputation loop: closed form

The loop mutates the table while iterating, so the mean used for a later
missing row includes values imputed into earlier rows.  The development
below shows the loop nevertheless computes a simple map: every originally
missing quantity becomes the rounded mean of the *originally* non-missing
same-product quantities (`imputeRowSpec`), independent of row order. -/

/-- The per-row closed form of the imputation loop. -/
def imputeRowSpec (t0 : List Row) (r : Row) : Row :=
  if r.quantity = none ∧ sameProductQuantities t0 r.productID ≠ [] then
    {r with quantity := some (imputeValue t0 r.productID)}
  else r

/-- The quantity row `r` contributes to the product-`pid` mean. -/
def qcontrib (pid : String) (r : Row) : Option ℚ :=
  if r.productID = pid then r.quantity else none

/-- Map with the position index, starting at `j`. -/
def mapIdxFrom (f : ℕ → Row → Row) : ℕ → List Row → List Row
  | _, [] => []
  | j, r :: rs => f j r :: mapIdxFrom f (j + 1) rs

/-- The table state after the loop has processed exactly the indices in
`done`. -/
def stateAfter (t0 : List Row) (done : List ℕ) : List Row :=
  mapIdxFrom (fun j r => if j ∈ done then imputeRowSpec t0 r else r) 0 t0

/-! ### The aggregation stage (`analyze_data`)

`groupby(key).agg(...)` is modelled as: the distinct keys (pandas sorts the
group keys ascending), each mapped to the aggregates of its group.
`sort_values('총매출', ascending=False)` uses pandas' default
`kind='quicksort'`, which leaves the relative order of equal-revenue rows
unspecified; the insertion sort below is one admissible deterministic
refinement of that sort, and no theorem in this file depends on the order
it gives equal elements — only on it being a permutation (`sortLe_perm`). -/

/-- Insertion of `a` into a sorted list: `a` goes before the first element
it is `le`-related to. -/
def insertLe {α : Type} (le : α → α → Bool) (a : α) : List α → List α
  | [] => [a]
  | b :: t => if le a b then a :: b :: t else b :: insertLe le a t

/-- Insertion sort with respect to `le`: a deterministic model of the
library sort; see the section comment for the tie-order caveat. -/
def sortLe {α : Type} (le : α → α → Bool) : List α → List α
  | [] => []
  | a :: t => insertLe le a (sortLe le t)

/-- Lexicographic code-point comparison on char lists. -/
def charsLt : List Char → List Char → Bool
  | [], [] => false
  | [], _ :: _ => true
  | _ :: _, [] => false
  | a :: as, b :: bs =>
    if a.toNat < b.toNat then true
    else if b.toNat < a.toNat then false
    else charsLt as bs

/-- Ascending string order (used for pandas' sorted group keys). -/
def strLeB (a b : String) : Bool := !(charsLt b.data a.data)

def optStrLe : Option String → Option String → Bool
  | none, _ => true
  | some _, none => false
  | some a, some b => strLeB a b

def pairLe (a b : String × String) : Bool :=
  if a.1 = b.1 then strLeB a.2 b.2 else strLeB a.1 b.1

def natLeB (a b : ℕ) : Bool := decide (a ≤ b)

/-- One row of a grouped analysis table: the columns
`['총매출', '평균주문금액', '주문수', '총판매량']` (total revenue, average
order value, order count, total quantity), all `.round(2)`-ed.  The average
of an all-NaN group is NaN (`none`); `count` counts non-NaN `TotalPrice`. -/
structure AggRow (K : Type) where
  key : K
  revenue : ℚ
  avgOrder : Option ℚ
  orders : ℕ
  qty : ℚ
deriving DecidableEq

def groupAgg {K : Type} [DecidableEq K] (rows : List Row) (key : Row → K)
    (k : K) : AggRow K :=
  let g := rows.filter (fun r => key r = k)
  let tps := g.filterMap (·.totalPrice)
  let qs := g.filterMap (·.quantity)
  { key := k
    revenue := round2 tps.sum
    avgOrder := if tps.length = 0 then none else some (round2 (tps.sum / tps.length))
    orders := tps.length
    qty := round2 qs.sum }

/-- The grouped keys, ascending, as pandas `groupby(sort=True)` yields
them. -/
def sortedKeys {K : Type} [DecidableEq K] (rows : List Row) (key : Row → K)
    (le : K → K → Bool) : List K :=
  sortLe le ((rows.map key).dedup)

/-- `df.groupby(key).agg({'TotalPrice': ['sum','mean','count'],
'Quantity': 'sum'}).round(2)`. -/
def groupTable {K : Type} [DecidableEq K] (rows : List Row) (key : Row → K)
    (le : K → K → Bool) : List (AggRow K) :=
  (sortedKeys rows key le).map (groupAgg rows key)

/-- `sort_values('총매출', ascending=False)`: descending comparison on the
rounded revenue (the tie order of the sort it drives is unspecified in the
source; see the section comment). -/
def revLe {K : Type} (a b : AggRow K) : Bool := decide (b.revenue ≤ a.revenue)

/-- One row of a time-series table (`TotalPrice` and `Quantity` sums). -/
structure TrendRow (K : Type) where
  key : K
  revenue : ℚ
  qty : ℚ
deriving DecidableEq

def trendAgg {K : Type} [DecidableEq K] (rows : List Row) (key : Row → K)
    (k : K) : TrendRow K :=
  let g := rows.filter (fun r => key r = k)
  { key := k
    revenue := round2 (g.filterMap (·.totalPrice)).sum
    qty := round2 (g.filterMap (·.quantity)).sum }

def trendTable {K : Type} [DecidableEq K] (rows : List Row) (key : Row → K)
    (le : K → K → Bool) : List (TrendRow K) :=
  (sortedKeys rows key le).map (trendAgg rows key)

/-- The `basic_stats` block: raw (unrounded) totals, NaN-skipping sums and
mean, `len` row count, min/max date. -/
structure BasicStats where
  totalSales : ℚ
  totalQuantity : ℚ
  avgOrderValue : Option ℚ
  totalOrders : ℕ
  dateStart : Option Date
  dateEnd : Option Date
deriving DecidableEq

def basicStats (rows : List Row) : BasicStats :=
  let tps := rows.filterMap (·.totalPrice)
  { totalSales := tps.sum
    totalQuantity := (rows.filterMap (·.quantity)).sum
    avgOrderValue := if tps.length = 0 then none else some (tps.sum / tps.length)
    totalOrders := rows.length
    dateStart := dateMin (rows.map (·.date))
    dateEnd := dateMax (rows.map (·.date)) }

/-- `self.analysis_results` after `analyze_data`. -/
structure AnalysisResults where
  basic : BasicStats
  categoryAnalysis : List (AggRow String)
  regionAnalysis : List (AggRow String)
  salespersonAnalysis : List (AggRow (Option String))
  topProducts : List (AggRow (String × String))
  dailyTrends : List (TrendRow Date)
  weeklyAnalysis : List (TrendRow ℕ)
deriving DecidableEq

/-- The aggregation stage `analyze_data` on the validated table. -/
def analyzeData (rows : List Row) : AnalysisResults :=
  { basic := basicStats rows
    categoryAnalysis := sortLe revLe (groupTable rows (·.category) strLeB)
    regionAnalysis := sortLe revLe (groupTable rows (·.region) strLeB)
    salespersonAnalysis := sortLe revLe (groupTable rows (·.salesperson) optStrLe)
    topProducts :=
      (sortLe revLe
        (groupTable rows (fun r => (r.productID, r.productName)) pairLe)).take 10
    dailyTrends := trendTable rows (·.date) dateLe
    weeklyAnalysis := trendTable rows (fun r => isoWeek r.date) natLeB }

/-! ### Report renderer and notifier -/

def fmtDate (d : Date) : String :=
  toString d.year ++ "-" ++ toString d.month ++ "-" ++ toString d.day

/-- `generate_word_report`, abstracted to the ordered section lines.  It
reads `date_range` via `strftime` (raising on `NaT`) and the top entry
(`index[0]` / `iloc[0]`) of each sorted table (raising on an empty table);
`none` models those exceptions aborting the run.  The data-quality notes
are the fixed four-element list of the source, emitted unconditionally. -/
def generateWordReport (res : AnalysisResults) (now : String) :
    Option (List String) :=
  match res.basic.dateStart, res.basic.dateEnd with
  | some ds, some de =>
    match res.categoryAnalysis, res.regionAnalysis,
          res.salespersonAnalysis, res.topProducts with
    | ca :: _, ra :: _, sa :: _, ta :: _ =>
      some
        [ "제품 판매 데이터 분석 보고서"
        , "분석 기간: " ++ fmtDate ds ++ " ~ " ++ fmtDate de
        , "보고서 생성일: " ++ now
        , "매출 리더: " ++ ca.key
        , "지역 성과: " ++ ra.key
        , "영업 성과: " ++ sa.key.getD ""
        , "인기 제품: " ++ ta.key.2
        , "일부 제품의 수량 정보가 누락되어 해당 제품의 평균값으로 대체했습니다."
        , "일부 영업사원 정보가 누락되어 'Unknown'으로 처리했습니다."
        , "잘못된 날짜 형식(과학적 표기법) 1건을 수정했습니다."
        , "무효한 제품 데이터(P0000) 1건을 제거했습니다."
        , "보고서 생성 시간: " ++ now ]
    | _, _, _, _ => none
  | _, _ => none

/-- `run_full_analysis`: clean → analyze → render; the rendered report is
saved at `docxPath` of the input path. -/
def runFullPipeline (t : List RawRow) (now : String) :
    Option (AnalysisResults × List String) :=
  (cleanTable t).bind fun rows =>
    let res := analyzeData rows
    (generateWordReport res now).map fun doc => (res, doc)

inductive EmailError where
  | attachmentNotFound (path : String)
  | smtpFailure
deriving DecidableEq

/-- The body of the `try:` block of `send_email_with_report`: the existence
check (`raise FileNotFoundError` when the document is absent) runs strictly
before `smtplib.SMTP(...)` opens a connection.  `fs` is the set of paths
present on disk, `smtpOk` abstracts whether connect/login/send succeeds.
The second component records whether an SMTP connection was attempted. -/
def sendInner (fs : List String) (path : String) (smtpOk : Bool) :
    Except EmailError Unit × Bool :=
  if path ∈ fs then
    (if smtpOk then (Except.ok (), true) else (Except.error EmailError.smtpFailure, true))
  else (Except.error (EmailError.attachmentNotFound path), false)

/-- `send_email_with_report`: the catch-all `except` turns *any* exception
from the body, including the missing-attachment one, into a `False`
return; nothing propagates to the caller. -/
def sendEmailWithReport (fs : List String) (path : String) (smtpOk : Bool) :
    Bool × Bool :=
  let inner := sendInner fs path smtpOk
  (match inner.1 with
    | Except.ok _ => true
    | Except.error _ => false, inner.2)

/-- The result of `main`'s environment-configured branch: the paths on
disk after the run, whether `send_email_with_report` was invoked, whether
an SMTP connection was attempted, and the boolean it returned (if
invoked). -/
structure MainResult where
  fs : List String
  emailAttempted : Bool
  smtpConnected : Bool
  emailSuccess : Option Bool
deriving DecidableEq

/-- The environment-configured branch of `main` (all three variables set
and non-empty): run the full pipeline, write the report, split the
recipients, syntactically validate sender then recipients, and only then
invoke the notifier.  The interactive branch is outside this model. -/
def mainEnvRun (csvPath senderEmail recipientEmail : String)
    (fs0 : List String) (t : List RawRow) (now : String) (smtpOk : Bool) :
    Option MainResult :=
  (runFullPipeline t now).map fun _res =>
    let reportPath := docxPath csvPath
    let fs1 := reportPath :: fs0
    let recipients := splitRecipients recipientEmail
    if ¬ emailMatch senderEmail then
      { fs := fs1, emailAttempted := false, smtpConnected := false,
        emailSuccess := none }
    else if recipients.any (fun r => ¬ emailMatch r) then
      { fs := fs1, emailAttempted := false, smtpConnected := false,
        emailSuccess := none }
    else
      let sendResult := sendEmailWithReport fs1 reportPath smtpOk
      { fs := fs1, emailAttempted := true, smtpConnected := sendResult.2,
        emailSuccess := some sendResult.1 }

/-- The unrounded revenue of the group of key `k` (the group sum *before*
the `.round(2)` that the analysis tables apply). -/
def rawGroupRevenue {K : Type} [DecidableEq K] (rows : List Row)
    (key : Row → K) (k : K) : ℚ :=
  ((rows.filter (fun r => key r = k)).filterMap (·.totalPrice)).sum

/-! ### Row order and the cleaned table -/

/-- Lifts `List.Perm` to the possibly-failing cleaning result: two runs
either both fail, or produce tables that are permutations of each other. -/
def optionPerm : Option (List Row) → Option (List Row) → Prop
  | some x, some y => x.Perm y
  | none, none => True
  | _, _ => False

/-! ### Concrete tables for witnesses and counterexamples -/

/-- A single well-formed transaction. -/
def w1Raw : RawRow :=
  ⟨"O1", "2025-09-22", "P1002", "Laptop", "Electronics", "North",
    some "Kim", some 2, 3, none⟩

def w1Table : List RawRow := [w1Raw]

def w1OutRow : Row :=
  ⟨"O1", ⟨2025, 9, 22⟩, "P1002", "Laptop", "Electronics", "North",
    some "Kim", some 2, 3, some (2 * 3)⟩

/-- The quantity-imputation scenario of the spec: product `"P1001"` with
quantities `[4, 6]` and one blank. -/
def c4RawA : RawRow :=
  ⟨"O1", "2025-09-22", "P1001", "Laptop", "Electronics", "North",
    some "Kim", some 4, 2, none⟩

def c4RawB : RawRow :=
  ⟨"O2", "2025-09-22", "P1001", "Laptop", "Electronics", "South",
    some "Lee", some 6, 2, none⟩

def c4RawC : RawRow :=
  ⟨"O3", "2025-09-22", "P1001", "Laptop", "Electronics", "West",
    some "Park", none, 2, none⟩

def c4Table : List RawRow := [c4RawA, c4RawB, c4RawC]

def c4MidA : Row :=
  ⟨"O1", ⟨2025, 9, 22⟩, "P1001", "Laptop", "Electronics", "North",
    some "Kim", some 4, 2, none⟩

def c4MidB : Row :=
  ⟨"O2", ⟨2025, 9, 22⟩, "P1001", "Laptop", "Electronics", "South",
    some "Lee", some 6, 2, none⟩

def c4MidC : Row :=
  ⟨"O3", ⟨2025, 9, 22⟩, "P1001", "Laptop", "Electronics", "West",
    some "Park", none, 2, none⟩

def c4Mid : List Row := [c4MidA, c4MidB, c4MidC]

def c4Out : List Row := fixSalesperson (recomputeTotals (imputeQuantities c4Mid))

/-- One product with one known quantity and *two* blank-quantity rows:
the configuration C10 is about. -/
def c10A : RawRow :=
  ⟨"O1", "2025-09-22", "P1001", "Laptop", "Electronics", "North",
    some "Kim", some 4, 2, none⟩

def c10B : RawRow :=
  ⟨"O2", "2025-09-22", "P1001", "Laptop", "Electronics", "South",
    some "Lee", none, 2, none⟩

def c10C : RawRow :=
  ⟨"O3", "2025-09-22", "P1001", "Laptop", "Electronics", "West",
    some "Park", none, 2, none⟩

def c10Table : List RawRow := [c10A, c10B, c10C]

def c10MidA : Row :=
  ⟨"O1", ⟨2025, 9, 22⟩, "P1001", "Laptop", "Electronics", "North",
    some "Kim", some 4, 2, none⟩

def c10MidB : Row :=
  ⟨"O2", ⟨2025, 9, 22⟩, "P1001", "Laptop", "Electronics", "South",
    some "Lee", none, 2, none⟩

def c10MidC : Row :=
  ⟨"O3", ⟨2025, 9, 22⟩, "P1001", "Laptop", "Electronics", "West",
    some "Park", none, 2, none⟩

/-- Two rows with sub-cent prices: rounding makes the per-category,
per-region and scalar totals pairwise different. -/
def c2RawA : RawRow :=
  ⟨"O1", "2025-09-22", "P2001", "Pen", "A", "X", some "Kim",
    some 1, 1/250, none⟩

def c2RawB : RawRow :=
  ⟨"O2", "2025-09-22", "P2002", "Ink", "B", "X", some "Kim",
    some 1, 1/250, none⟩

def c2Table : List RawRow := [c2RawA, c2RawB]

def c2OutA : Row :=
  ⟨"O1", ⟨2025, 9, 22⟩, "P2001", "Pen", "A", "X", some "Kim",
    some 1, 1/250, some (1 * (1/250))⟩

def c2OutB : Row :=
  ⟨"O2", ⟨2025, 9, 22⟩, "P2002", "Ink", "B", "X", some "Kim",
    some 1, 1/250, some (1 * (1/250))⟩

def c2Out : List Row := [c2OutA, c2OutB]

/-- A table whose only row has the placeholder ProductID, so the validated
table is empty. -/
def c5Raw : RawRow :=
  ⟨"O1", "2025-09-22", "P0000", "Bad", "Electronics", "North",
    some "Kim", some 1, 1, none⟩

def c5Table : List RawRow := [c5Raw]

def c7Out : MainResult :=
  ⟨[docxPath "references/cicd_data.csv"], false, false, none⟩

def c10Mid : List Row := [c10MidA, c10MidB, c10MidC]

def c10Out : List Row := fixSalesperson (recomputeTotals (imputeQuantities c10Mid))

theorem pythonRound_le_half (q : ℚ) : |q - pythonRound q| ≤ 1/2 := by
  unfold pythonRound
  have h0 : (⌊q⌋ : ℚ) ≤ q := Int.floor_le q
  have h1 : q < ⌊q⌋ + 1 := Int.lt_floor_add_one q
  by_cases hlt : q - ⌊q⌋ < 1/2
  · rw [if_pos hlt, abs_le]
    constructor <;> linarith
  · rw [if_neg hlt]
    by_cases hgt : (1:ℚ)/2 < q - ⌊q⌋
    · rw [if_pos hgt, abs_le]
      push_cast
      constructor <;> linarith
    · rw [if_neg hgt]
      have heq : q - ⌊q⌋ = 1/2 := le_antisymm (not_lt.mp hgt) (not_lt.mp hlt)
      by_cases hev : ⌊q⌋ % 2 = 0
      · rw [if_pos hev, abs_le]
        constructor <;> linarith
      · rw [if_neg hev, abs_le]
        push_cast
        constructor <;> linarith

theorem pythonRound_eq_of_close (z : ℤ) (q : ℚ) (h : |q - z| < 1/2) :
    pythonRound q = z := by
  rw [abs_sub_lt_iff] at h
  obtain ⟨h1, h2⟩ := h
  by_cases hge : (z : ℚ) ≤ q
  · have hfl : ⌊q⌋ = z := by
      rw [Int.floor_eq_iff]
      constructor
      · exact hge
      · linarith
    have hc : q - (⌊q⌋ : ℚ) < 1/2 := by rw [hfl]; linarith
    unfold pythonRound
    rw [if_pos hc, hfl]
  · push_neg at hge
    have hfl : ⌊q⌋ = z - 1 := by
      rw [Int.floor_eq_iff]
      push_cast
      constructor <;> linarith
    have hc : ¬ (q - (⌊q⌋ : ℚ) < 1/2) := by rw [hfl]; push_cast; push_neg; linarith
    have hc2 : (1:ℚ)/2 < q - (⌊q⌋ : ℚ) := by rw [hfl]; push_cast; linarith
    unfold pythonRound
    rw [if_neg hc, if_pos hc2, hfl]
    ring

theorem pythonRound_intCast (z : ℤ) : pythonRound (z : ℚ) = z := by
  apply pythonRound_eq_of_close
  norm_num

/-- Feeding already-imputed copies of the rounded mean back into the mean does
not change the rounded mean: the key fact behind order-independence of the
quantity imputation. -/
theorem pythonRound_mean_absorb (S : ℚ) (n k : ℕ) (hn : 0 < n) :
    pythonRound ((S + k * (pythonRound (S / n) : ℚ)) / (n + k)) =
      pythonRound (S / n) := by
  rcases Nat.eq_zero_or_pos k with hk | hk
  · subst hk; norm_num
  · set r : ℤ := pythonRound (S / n) with hr
    have hnQ : (0:ℚ) < n := by exact_mod_cast hn
    have hkQ : (0:ℚ) < k := by exact_mod_cast hk
    have hnkQ : (0:ℚ) < (n:ℚ) + k := by linarith
    apply pythonRound_eq_of_close
    have hbound : |S / n - r| ≤ 1/2 := by
      rw [hr]; exact pythonRound_le_half (S / n)
    have key : (S + k * (r:ℚ)) / ((n:ℚ) + k) - r
        = (n / ((n:ℚ) + k)) * (S / n - r) := by
      field_simp
      ring
    rw [key, abs_mul]
    have hfrac_pos : (0:ℚ) < (n:ℚ) / ((n:ℚ) + k) := by positivity
    have hfrac_lt : (n:ℚ) / ((n:ℚ) + k) < 1 := by
      rw [div_lt_one hnkQ]; linarith
    have habs : |(n:ℚ) / ((n:ℚ) + k)| = (n:ℚ) / ((n:ℚ) + k) := abs_of_pos hfrac_pos
    rw [habs]
    calc (n:ℚ) / ((n:ℚ) + k) * |S / n - r|
        ≤ (n:ℚ) / ((n:ℚ) + k) * (1/2) := by
          apply mul_le_mul_of_nonneg_left hbound (le_of_lt hfrac_pos)
      _ < 1/2 := by nlinarith

/-- Helper for concrete evaluations: `pythonRound` of a value in the lower
half-open interval around an integer. -/
theorem pythonRound_eq_low (z : ℤ) (q : ℚ) (h1 : (z:ℚ) ≤ q) (h2 : q < z + 1/2) :
    pythonRound q = z := by
  apply pythonRound_eq_of_close
  rw [abs_sub_lt_iff]
  constructor <;> linarith

/-- Helper for concrete evaluations: `pythonRound` of a value just above the
half point rounds up. -/
theorem pythonRound_eq_high (z : ℤ) (q : ℚ) (h1 : (z:ℚ) - 1/2 < q) (h2 : q ≤ z) :
    pythonRound q = z := by
  apply pythonRound_eq_of_close
  rw [abs_sub_lt_iff]
  constructor <;> linarith

theorem replaceCsv_eq_self : ∀ cs : List Char, hasCsv cs = false → replaceCsv cs = cs
  | [], _ => rfl
  | c :: cs, h => by
    rw [hasCsv] at h
    by_cases hp : csvAt c cs
    · rw [if_pos hp] at h; exact absurd h (by simp)
    · rw [if_neg hp] at h
      have ih := replaceCsv_eq_self cs h
      rcases cs with _ | ⟨a, _ | ⟨b, _ | ⟨d, rest⟩⟩⟩ <;>
        rw [replaceCsv, if_neg hp, ih] <;> simp

theorem sameProductQuantities_eq_filterMap (t : List Row) (pid : String) :
    sameProductQuantities t pid = t.filterMap (qcontrib pid) := rfl

theorem length_mapIdxFrom (f : ℕ → Row → Row) :
    ∀ (j : ℕ) (l : List Row), (mapIdxFrom f j l).length = l.length
  | _, [] => rfl
  | j, _ :: rs => by simp [mapIdxFrom, length_mapIdxFrom f (j + 1) rs]

theorem getElem?_mapIdxFrom (f : ℕ → Row → Row) :
    ∀ (l : List Row) (j i : ℕ),
      (mapIdxFrom f j l)[i]? = (l[i]?).map (f (j + i))
  | [], j, i => by simp [mapIdxFrom]
  | r :: rs, j, 0 => by simp [mapIdxFrom]
  | r :: rs, j, (i + 1) => by
    have h : j + (i + 1) = j + 1 + i := by omega
    simp only [mapIdxFrom, List.getElem?_cons_succ, h]
    exact getElem?_mapIdxFrom f rs (j + 1) i

theorem contrib_aux (t0 : List Row) (done : List ℕ) (pid : String) :
    ∀ (l : List Row), ∀ (j : ℕ),
      (∀ i r, l[i]? = some r → (j + i) ∈ done → r.quantity = none) →
      ∃ k : ℕ,
        ((mapIdxFrom (fun j r => if j ∈ done then imputeRowSpec t0 r else r) j
            l).filterMap (qcontrib pid)).sum
          = (l.filterMap (qcontrib pid)).sum + k * imputeValue t0 pid
        ∧ ((mapIdxFrom (fun j r => if j ∈ done then imputeRowSpec t0 r else r) j
            l).filterMap (qcontrib pid)).length
          = (l.filterMap (qcontrib pid)).length + k
        ∧ (k ≠ 0 → sameProductQuantities t0 pid ≠ []) := by
  intro l
  induction l with
  | nil => exact fun j _ => ⟨0, by simp [mapIdxFrom], by simp [mapIdxFrom], by simp⟩
  | cons r rs ih =>
    intro j H
    have Ht : ∀ i r', rs[i]? = some r' → (j + 1 + i) ∈ done → r'.quantity = none := by
      intro i r' h1 h2
      refine H (i + 1) r' (by simpa using h1) ?_
      have : j + (i + 1) = j + 1 + i := by omega
      rw [this]; exact h2
    obtain ⟨k, hsum, hlen, hk⟩ := ih (j + 1) Ht
    by_cases hj : j ∈ done
    · have hq : r.quantity = none := H 0 r (by simp) (by simpa using hj)
      have hqc : qcontrib pid r = none := by simp [qcontrib, hq]
      by_cases hc : r.quantity = none ∧ sameProductQuantities t0 r.productID ≠ []
      · have hspec : imputeRowSpec t0 r
            = {r with quantity := some (imputeValue t0 r.productID)} := by
          unfold imputeRowSpec; rw [if_pos hc]
        by_cases hpid : r.productID = pid
        · have hqc2 : qcontrib pid (imputeRowSpec t0 r) = some (imputeValue t0 pid) := by
            rw [hspec]
            show (if r.productID = pid then some (imputeValue t0 r.productID) else none)
              = some (imputeValue t0 pid)
            rw [if_pos hpid, hpid]
          refine ⟨k + 1, ?_, ?_, ?_⟩
          · simp only [mapIdxFrom, hj, if_true, List.filterMap_cons, hqc2, hqc,
              List.sum_cons, hsum]
            push_cast
            ring
          · simp only [mapIdxFrom, hj, if_true, List.filterMap_cons, hqc2, hqc,
              List.length_cons, hlen]
            omega
          · intro _
            rw [← hpid]
            exact hc.2
        · have hqc2 : qcontrib pid (imputeRowSpec t0 r) = none := by
            rw [hspec]
            show (if r.productID = pid then some (imputeValue t0 r.productID) else none) = none
            rw [if_neg hpid]
          refine ⟨k, ?_, ?_, hk⟩
          · simpa only [mapIdxFrom, hj, if_true, List.filterMap_cons, hqc2, hqc] using hsum
          · simpa only [mapIdxFrom, hj, if_true, List.filterMap_cons, hqc2, hqc] using hlen
      · have hspec : imputeRowSpec t0 r = r := by unfold imputeRowSpec; rw [if_neg hc]
        refine ⟨k, ?_, ?_, hk⟩
        · simpa only [mapIdxFrom, hj, if_true, hspec, List.filterMap_cons, hqc] using hsum
        · simpa only [mapIdxFrom, hj, if_true, hspec, List.filterMap_cons, hqc] using hlen
    · cases hv : qcontrib pid r with
      | none =>
        refine ⟨k, ?_, ?_, hk⟩
        · simpa only [mapIdxFrom, hj, if_false, List.filterMap_cons, hv] using hsum
        · simpa only [mapIdxFrom, hj, if_false, List.filterMap_cons, hv] using hlen
      | some q =>
        refine ⟨k, ?_, ?_, hk⟩
        · simp only [mapIdxFrom, hj, if_false, List.filterMap_cons, hv, List.sum_cons, hsum]
          ring
        · simp only [mapIdxFrom, hj, if_false, List.filterMap_cons, hv, List.length_cons, hlen]
          omega

theorem set_getElem?_same : ∀ (l : List Row) (i : ℕ) (a : Row), i < l.length →
    (l.set i a)[i]? = some a
  | [], i, a, h => absurd h (by simp)
  | x :: xs, 0, a, _ => by simp
  | x :: xs, (i + 1), a, h => by
    simpa using set_getElem?_same xs i a (by simpa using h)

theorem set_getElem?_ne : ∀ (l : List Row) (i j : ℕ) (a : Row), i ≠ j →
    (l.set i a)[j]? = l[j]?
  | [], _, _, _, _ => by simp
  | x :: xs, 0, 0, a, h => absurd rfl h
  | x :: xs, 0, (j + 1), a, h => by simp
  | x :: xs, (i + 1), 0, a, h => by simp
  | x :: xs, (i + 1), (j + 1), a, h => by
    simpa using set_getElem?_ne xs i j a (by omega)

theorem missingIdx_lt {t : List Row} {j : ℕ} (h : j ∈ missingIdx t) : j < t.length := by
  unfold missingIdx at h
  exact List.mem_range.mp (List.mem_filter.mp h).1

theorem missingIdx_quantity {t : List Row} {j : ℕ} (h : j ∈ missingIdx t) :
    ∀ r, t[j]? = some r → r.quantity = none := by
  intro r hr
  unfold missingIdx at h
  have h2 := (List.mem_filter.mp h).2
  rw [hr] at h2
  exact Option.isNone_iff_eq_none.mp h2

theorem mem_missingIdx {t : List Row} {j : ℕ} {r : Row}
    (hr : t[j]? = some r) (hq : r.quantity.isNone) : j ∈ missingIdx t := by
  unfold missingIdx
  rw [List.mem_filter]
  have hlt : j < t.length := by
    by_contra hge
    push_neg at hge
    rw [List.getElem?_eq_none hge] at hr
    exact Option.noConfusion hr
  exact ⟨List.mem_range.mpr hlt, by rw [hr]; exact hq⟩

theorem missingIdx_nodup (t : List Row) : (missingIdx t).Nodup :=
  (List.nodup_range _).filter _

theorem lt_of_getElem?_eq_some {t : List Row} {j : ℕ} {r : Row}
    (h : t[j]? = some r) : j < t.length := by
  by_contra hge
  push_neg at hge
  rw [List.getElem?_eq_none hge] at h
  exact Option.noConfusion h

/-- The central step lemma: running one loop iteration on the state that has
already processed `done` yields the state for `done ++ [i]`. -/
theorem imputeStep_stateAfter (t0 : List Row) (done : List ℕ) (i : ℕ) (r0 : Row)
    (hi : t0[i]? = some r0) (hq : r0.quantity = none) (hnd : i ∉ done)
    (hdone : ∀ j ∈ done, ∀ r, t0[j]? = some r → r.quantity = none) :
    imputeStep (stateAfter t0 done) i = stateAfter t0 (done ++ [i]) := by
  have hsi : (stateAfter t0 done)[i]? = some r0 := by
    unfold stateAfter
    rw [getElem?_mapIdxFrom]
    simp only [Nat.zero_add, hi, Option.map_some']
    rw [if_neg hnd]
  obtain ⟨k, hsum, hlen, hk⟩ :=
    contrib_aux t0 done r0.productID t0 0
      (fun i2 r h1 h2 => hdone i2 (by simpa using h2) r h1)
  have hqseq : sameProductQuantities (stateAfter t0 done) r0.productID
      = (mapIdxFrom (fun j r => if j ∈ done then imputeRowSpec t0 r else r) 0
          t0).filterMap (qcontrib r0.productID) := rfl
  have hSeq : sameProductQuantities t0 r0.productID
      = t0.filterMap (qcontrib r0.productID) := rfl
  by_cases hS : sameProductQuantities t0 r0.productID = []
  · have hk0 : k = 0 := by
      by_contra h
      exact (hk h) hS
    have hqs : sameProductQuantities (stateAfter t0 done) r0.productID = [] := by
      apply List.length_eq_zero.mp
      rw [hqseq, hlen, ← hSeq, hS]
      simp [hk0]
    simp only [imputeStep, hsi]
    rw [if_pos hqs]
    apply List.ext_getElem?
    intro j
    unfold stateAfter
    rw [getElem?_mapIdxFrom, getElem?_mapIdxFrom]
    simp only [Nat.zero_add]
    cases hj : t0[j]? with
    | none => rfl
    | some r =>
      simp only [Option.map_some']
      by_cases hji : j = i
      · subst hji
        have hrr : r = r0 := by rw [hi] at hj; exact (Option.some.inj hj).symm
        subst hrr
        rw [if_neg hnd, if_pos (by simp)]
        have : imputeRowSpec t0 r = r := by
          unfold imputeRowSpec
          rw [if_neg]
          rintro ⟨-, h2⟩
          exact h2 hS
        rw [this]
      · have hmem : j ∈ done ++ [i] ↔ j ∈ done := by simp [hji]
        by_cases hjd : j ∈ done
        · rw [if_pos hjd, if_pos (hmem.mpr hjd)]
        · rw [if_neg hjd, if_neg (fun h => hjd (hmem.mp h))]
  · have hn : 0 < (sameProductQuantities t0 r0.productID).length :=
      List.length_pos.mpr hS
    have hqs : sameProductQuantities (stateAfter t0 done) r0.productID ≠ [] := by
      intro h
      have h0 : (List.filterMap (qcontrib r0.productID)
          (mapIdxFrom (fun j r => if j ∈ done then imputeRowSpec t0 r else r) 0
            t0)).length = 0 := by
        rw [← hqseq, h]
        rfl
      rw [hlen, ← hSeq] at h0
      omega
    simp only [imputeStep, hsi]
    rw [if_neg hqs]
    have hz : pythonRound ((sameProductQuantities (stateAfter t0 done) r0.productID).sum /
          ((sameProductQuantities (stateAfter t0 done) r0.productID).length : ℚ))
        = pythonRound ((sameProductQuantities t0 r0.productID).sum /
          ((sameProductQuantities t0 r0.productID).length : ℚ)) := by
      rw [hqseq, hsum, hlen, ← hSeq]
      have habs := pythonRound_mean_absorb (sameProductQuantities t0 r0.productID).sum
        (sameProductQuantities t0 r0.productID).length k hn
      push_cast
      push_cast at habs
      exact habs
    have hval : imputeValue (stateAfter t0 done) r0.productID
        = imputeValue t0 r0.productID := by
      show ((pythonRound ((sameProductQuantities (stateAfter t0 done) r0.productID).sum /
          ((sameProductQuantities (stateAfter t0 done) r0.productID).length : ℚ)) : ℤ) : ℚ)
        = ((pythonRound ((sameProductQuantities t0 r0.productID).sum /
          ((sameProductQuantities t0 r0.productID).length : ℚ)) : ℤ) : ℚ)
      exact_mod_cast congrArg (fun z : ℤ => (z : ℚ)) hz
    rw [hval]
    apply List.ext_getElem?
    intro j
    by_cases hji : j = i
    · subst hji
      have hlt : j < (stateAfter t0 done).length := by
        unfold stateAfter
        rw [length_mapIdxFrom]
        exact lt_of_getElem?_eq_some hi
      rw [set_getElem?_same _ _ _ hlt]
      unfold stateAfter
      rw [getElem?_mapIdxFrom]
      simp only [Nat.zero_add, hi, Option.map_some']
      rw [if_pos (by simp)]
      have : imputeRowSpec t0 r0
          = {r0 with quantity := some (imputeValue t0 r0.productID)} := by
        unfold imputeRowSpec
        rw [if_pos ⟨hq, hS⟩]
      rw [this]
    · rw [set_getElem?_ne _ _ _ _ (fun h => hji h.symm)]
      unfold stateAfter
      rw [getElem?_mapIdxFrom, getElem?_mapIdxFrom]
      simp only [Nat.zero_add]
      cases hj : t0[j]? with
      | none => rfl
      | some r =>
        simp only [Option.map_some']
        have hmem : j ∈ done ++ [i] ↔ j ∈ done := by simp [hji]
        by_cases hjd : j ∈ done
        · rw [if_pos hjd, if_pos (hmem.mpr hjd)]
        · rw [if_neg hjd, if_neg (fun h => hjd (hmem.mp h))]

theorem foldl_imputeStep_eq (t0 : List Row) :
    ∀ (rest done : List ℕ),
      (∀ j, j ∈ done ++ rest → ∀ r, t0[j]? = some r → r.quantity = none) →
      (∀ j, j ∈ done ++ rest → j < t0.length) →
      (done ++ rest).Nodup →
      rest.foldl imputeStep (stateAfter t0 done) = stateAfter t0 (done ++ rest)
  | [], done, _, _, _ => by simp
  | i :: rest, done, H, Hb, Hnd => by
    have hilt : i < t0.length := Hb i (by simp)
    obtain ⟨r0, hi⟩ : ∃ r, t0[i]? = some r := by
      cases h : t0[i]? with
      | none =>
        rw [List.getElem?_eq_none_iff] at h
        omega
      | some r => exact ⟨r, rfl⟩
    have hq : r0.quantity = none := H i (by simp) r0 hi
    have hnd : i ∉ done := by
      intro hmem
      rw [List.nodup_append] at Hnd
      exact Hnd.2.2 hmem (by simp)
    have hdone : ∀ j ∈ done, ∀ r, t0[j]? = some r → r.quantity = none :=
      fun j hj => H j (List.mem_append_left _ hj)
    have hre : done ++ i :: rest = (done ++ [i]) ++ rest := by simp
    rw [List.foldl_cons, imputeStep_stateAfter t0 done i r0 hi hq hnd hdone,
      foldl_imputeStep_eq t0 rest (done ++ [i])
        (fun j hj => H j (by rw [hre]; exact hj))
        (fun j hj => Hb j (by rw [hre]; exact hj))
        (by rw [← hre]; exact Hnd),
      hre]

theorem stateAfter_nil (t0 : List Row) : stateAfter t0 [] = t0 := by
  unfold stateAfter
  suffices h : ∀ (j : ℕ) (l : List Row),
      mapIdxFrom (fun j r => if j ∈ ([] : List ℕ) then imputeRowSpec t0 r else r) j l = l by
    exact h 0 t0
  intro j l
  induction l generalizing j with
  | nil => rfl
  | cons r rs ih =>
    simp only [mapIdxFrom]
    rw [if_neg (List.not_mem_nil j), ih (j + 1)]

theorem stateAfter_missingIdx (t0 : List Row) :
    stateAfter t0 (missingIdx t0) = t0.map (imputeRowSpec t0) := by
  apply List.ext_getElem?
  intro j
  unfold stateAfter
  rw [getElem?_mapIdxFrom, List.getElem?_map]
  simp only [Nat.zero_add]
  cases hj : t0[j]? with
  | none => rfl
  | some r =>
    simp only [Option.map_some']
    by_cases hm : j ∈ missingIdx t0
    · rw [if_pos hm]
    · rw [if_neg hm]
      have hq : ¬ r.quantity = none := by
        intro hqn
        exact hm (mem_missingIdx hj (by rw [hqn]; rfl))
      have : imputeRowSpec t0 r = r := by
        unfold imputeRowSpec
        rw [if_neg]
        rintro ⟨h1, -⟩
        exact hq h1
      rw [this]

/-- Closed form of the whole imputation loop: despite the sequential
mutation, it is the map of `imputeRowSpec` over the table. -/
theorem imputeQuantities_eq_map (t0 : List Row) :
    imputeQuantities t0 = t0.map (imputeRowSpec t0) := by
  unfold imputeQuantities
  have h := foldl_imputeStep_eq t0 (missingIdx t0) []
    (fun j hj r hr => missingIdx_quantity hj r hr)
    (fun j hj => missingIdx_lt (t := t0) hj)
    (missingIdx_nodup t0)
  rw [stateAfter_nil] at h
  rw [h]
  exact stateAfter_missingIdx t0

theorem insertLe_perm {α : Type} (le : α → α → Bool) (a : α) :
    ∀ s : List α, (insertLe le a s).Perm (a :: s)
  | [] => List.Perm.refl _
  | b :: t => by
    unfold insertLe
    by_cases h : le a b
    · rw [if_pos h]
    · rw [if_neg h]
      exact ((insertLe_perm le a t).cons b).trans (List.Perm.swap a b t)

theorem sortLe_perm {α : Type} (le : α → α → Bool) :
    ∀ l : List α, (sortLe le l).Perm l
  | [] => List.Perm.refl _
  | a :: t =>
    (insertLe_perm le a (sortLe le t)).trans ((sortLe_perm le t).cons a)

/-! ### Partition lemmas: group sums against the scalar total -/

theorem sum_map_filter_split (p : Row → Bool) (f : Row → ℚ) :
    ∀ l : List Row,
      ((l.filter p).map f).sum + ((l.filter (fun r => !(p r))).map f).sum
        = (l.map f).sum
  | [] => by simp
  | r :: t => by
    cases hpr : p r with
    | true =>
      simp only [List.filter_cons, hpr, Bool.not_true]
      simp only [if_true, if_neg (Bool.false_ne_true), List.map_cons, List.sum_cons]
      rw [← sum_map_filter_split p f t]
      ring
    | false =>
      simp only [List.filter_cons, hpr, Bool.not_false]
      simp only [if_true, if_neg (Bool.false_ne_true), List.map_cons, List.sum_cons]
      rw [← sum_map_filter_split p f t]
      ring

theorem filter_filter_ne {K : Type} [DecidableEq K] (key : Row → K)
    (k k2 : K) (hne : k2 ≠ k) :
    ∀ l : List Row,
      (l.filter (fun r => !(decide (key r = k)))).filter
          (fun r => decide (key r = k2))
        = l.filter (fun r => decide (key r = k2))
  | l => by
    rw [List.filter_filter]
    apply List.filter_congr
    intro r _
    by_cases h2 : key r = k2
    · have h1 : ¬ key r = k := fun hh => hne (by rw [← h2, hh])
      simp [h1, h2, hne]
    · simp [h2]

theorem sum_groups {K : Type} [DecidableEq K] (key : Row → K) (f : Row → ℚ) :
    ∀ (ks : List K) (rows : List Row), ks.Nodup →
      (∀ r ∈ rows, key r ∈ ks) →
      (ks.map (fun k =>
        ((rows.filter (fun r => decide (key r = k))).map f).sum)).sum
        = (rows.map f).sum
  | [], rows, _, hcov => by
    have : rows = [] := by
      cases rows with
      | nil => rfl
      | cons r t => exact absurd (hcov r (List.mem_cons_self r t)) (by simp)
    subst this
    simp
  | k :: ks, rows, hnd, hcov => by
    rw [List.nodup_cons] at hnd
    obtain ⟨hk, hnd⟩ := hnd
    set rows2 := rows.filter (fun r => !(decide (key r = k))) with hrows2
    have hcong : ks.map (fun k2 =>
          ((rows.filter (fun r => decide (key r = k2))).map f).sum)
        = ks.map (fun k2 =>
          ((rows2.filter (fun r => decide (key r = k2))).map f).sum) := by
      apply List.map_congr_left
      intro k2 hk2
      have hne : k2 ≠ k := fun hh => hk (hh ▸ hk2)
      rw [hrows2, filter_filter_ne key k k2 hne rows]
    have hcov2 : ∀ r ∈ rows2, key r ∈ ks := by
      intro r hr
      rw [hrows2, List.mem_filter] at hr
      rcases List.mem_cons.mp (hcov r hr.1) with heq | hm
      · exact absurd heq (by simpa using hr.2)
      · exact hm
    simp only [List.map_cons, List.sum_cons, hcong,
      sum_groups key f ks rows2 hnd hcov2]
    rw [hrows2]
    exact sum_map_filter_split (fun r => decide (key r = k)) f rows

theorem sum_filterMap_totalPrice :
    ∀ l : List Row,
      (l.filterMap (·.totalPrice)).sum
        = (l.map (fun r => r.totalPrice.getD 0)).sum
  | [] => rfl
  | r :: t => by
    cases h : r.totalPrice with
    | none =>
      simp only [List.filterMap_cons, h, List.map_cons, List.sum_cons,
        Option.getD_none, sum_filterMap_totalPrice t]
      ring
    | some q =>
      simp only [List.filterMap_cons, h, List.map_cons, List.sum_cons,
        Option.getD_some, sum_filterMap_totalPrice t]

theorem sum_rawGroupRevenue {K : Type} [DecidableEq K] (rows : List Row)
    (key : Row → K) (le : K → K → Bool) :
    ((sortedKeys rows key le).map (rawGroupRevenue rows key)).sum
      = (basicStats rows).totalSales := by
  have hperm : (sortedKeys rows key le).Perm ((rows.map key).dedup) :=
    sortLe_perm le _
  have h1 : ((sortedKeys rows key le).map (rawGroupRevenue rows key)).sum
      = (((rows.map key).dedup).map (rawGroupRevenue rows key)).sum :=
    (hperm.map _).sum_eq
  rw [h1]
  have h2 : ∀ k, rawGroupRevenue rows key k
      = ((rows.filter (fun r => decide (key r = k))).map
          (fun r => r.totalPrice.getD 0)).sum := by
    intro k
    unfold rawGroupRevenue
    exact sum_filterMap_totalPrice _
  have h3 : (basicStats rows).totalSales
      = (rows.map (fun r => r.totalPrice.getD 0)).sum :=
    sum_filterMap_totalPrice rows
  rw [h3]
  have h4 : (((rows.map key).dedup).map (rawGroupRevenue rows key)).sum
      = (((rows.map key).dedup).map (fun k =>
          ((rows.filter (fun r => decide (key r = k))).map
            (fun r => r.totalPrice.getD 0)).sum)).sum := by
    congr 1
    exact List.map_congr_left (fun k _ => h2 k)
  rw [h4]
  exact sum_groups key (fun r => r.totalPrice.getD 0) ((rows.map key).dedup)
    rows ((rows.map key).nodup_dedup)
    (fun r hr => List.mem_dedup.mpr (List.mem_map_of_mem key hr))

theorem parseRows_perm {t u : List RawRow} (h : t.Perm u) :
    optionPerm (parseRows t) (parseRows u) := by
  induction h with
  | nil => exact List.Perm.refl []
  | cons x h2 ih =>
    rename_i l1 l2
    cases hdx : parseDate x.date with
    | none => simp only [parseRows, hdx]; exact trivial
    | some d =>
      simp only [parseRows, hdx]
      cases hp1 : parseRows l1 with
      | none =>
        cases hp2 : parseRows l2 with
        | none => exact trivial
        | some b => rw [hp1, hp2] at ih; exact ih.elim
      | some a =>
        cases hp2 : parseRows l2 with
        | none => rw [hp1, hp2] at ih; exact ih.elim
        | some b =>
          rw [hp1, hp2] at ih
          exact ih.cons _
  | swap x y l =>
    cases hdx : parseDate x.date with
    | none =>
      cases hdy : parseDate y.date with
      | none => simp only [parseRows, hdx, hdy]; exact trivial
      | some dy => simp only [parseRows, hdx, hdy]; exact trivial
    | some dx =>
      cases hdy : parseDate y.date with
      | none => simp only [parseRows, hdx, hdy]; exact trivial
      | some dy =>
        cases hpl : parseRows l with
        | none => simp only [parseRows, hdx, hdy, hpl]; exact trivial
        | some a =>
          simp only [parseRows, hdx, hdy, hpl]
          exact List.Perm.swap _ _ a
  | trans h1 h2 ih1 ih2 =>
    rename_i l1 l2 l3
    cases hp1 : parseRows l1 with
    | none =>
      cases hp2 : parseRows l2 with
      | none =>
        cases hp3 : parseRows l3 with
        | none => exact trivial
        | some c => rw [hp2, hp3] at ih2; exact ih2.elim
      | some b => rw [hp1, hp2] at ih1; exact ih1.elim
    | some a =>
      cases hp2 : parseRows l2 with
      | none => rw [hp1, hp2] at ih1; exact ih1.elim
      | some b =>
        cases hp3 : parseRows l3 with
        | none => rw [hp2, hp3] at ih2; exact ih2.elim
        | some c =>
          rw [hp1, hp2] at ih1
          rw [hp2, hp3] at ih2
          exact List.Perm.trans ih1 ih2

theorem imputeRowSpec_perm_congr {A B : List Row} (hAB : A.Perm B) :
    imputeRowSpec B = imputeRowSpec A := by
  funext r
  unfold imputeRowSpec
  have hperm : (sameProductQuantities A r.productID).Perm
      (sameProductQuantities B r.productID) :=
    hAB.filterMap _
  have hlen : (sameProductQuantities B r.productID).length
      = (sameProductQuantities A r.productID).length := hperm.length_eq.symm
  have hsum : (sameProductQuantities B r.productID).sum
      = (sameProductQuantities A r.productID).sum := hperm.sum_eq.symm
  have hval : imputeValue B r.productID = imputeValue A r.productID := by
    show ((pythonRound ((sameProductQuantities B r.productID).sum /
        ((sameProductQuantities B r.productID).length : ℚ))) : ℚ) = _
    rw [hsum, hlen]
    rfl
  by_cases hq : r.quantity = none
  · by_cases hA : sameProductQuantities A r.productID = []
    · have hB : sameProductQuantities B r.productID = [] := by
        apply List.length_eq_zero.mp
        rw [hlen, hA]
        rfl
      rw [if_neg (fun hc => hc.2 hB), if_neg (fun hc => hc.2 hA)]
    · have hB : sameProductQuantities B r.productID ≠ [] := by
        intro hnil
        apply hA
        apply List.length_eq_zero.mp
        rw [← hlen, hnil]
        rfl
      rw [if_pos ⟨hq, hB⟩, if_pos ⟨hq, hA⟩, hval]
  · rw [if_neg (fun hc => hq hc.1), if_neg (fun hc => hq hc.1)]

/-- Cleaning commutes with any permutation of the input rows: the cleaned
tables are permutations of each other (so every per-row result, the imputed
quantities included, is independent of the input row order). -/
theorem cleanTable_perm {t u : List RawRow} (h : t.Perm u) :
    optionPerm (cleanTable t) (cleanTable u) := by
  have hfix : (fixDates t).Perm (fixDates u) := h.map _
  have hparse := parseRows_perm hfix
  cases hp1 : parseRows (fixDates t) with
  | none =>
    cases hp2 : parseRows (fixDates u) with
    | none => simp only [cleanTable, preImputeTable, hp1, hp2]; exact trivial
    | some b => rw [hp1, hp2] at hparse; exact hparse.elim
  | some a =>
    cases hp2 : parseRows (fixDates u) with
    | none => rw [hp1, hp2] at hparse; exact hparse.elim
    | some b =>
      rw [hp1, hp2] at hparse
      simp only [cleanTable, preImputeTable, hp1, hp2, Option.map_some']
      show (fixSalesperson (recomputeTotals (imputeQuantities
          (dropInvalidProducts (normalizeText a))))).Perm
        (fixSalesperson (recomputeTotals (imputeQuantities
          (dropInvalidProducts (normalizeText b)))))
      have hAB : (dropInvalidProducts (normalizeText a)).Perm
          (dropInvalidProducts (normalizeText b)) := (hparse.map _).filter _
      rw [imputeQuantities_eq_map, imputeQuantities_eq_map,
        imputeRowSpec_perm_congr hAB]
      exact (((hAB.map _).map _).map _)

/-! ### Helpers for the claim theorems -/

theorem cleanTable_eq_spec (t : List RawRow) (mid : List Row)
    (h : preImputeTable t = some mid) :
    cleanTable t
      = some (fixSalesperson (recomputeTotals (mid.map (imputeRowSpec mid)))) := by
  unfold cleanTable
  rw [h, Option.map_some', imputeQuantities_eq_map]

theorem imputeRowSpec_productID (t0 : List Row) (r : Row) :
    (imputeRowSpec t0 r).productID = r.productID := by
  unfold imputeRowSpec
  by_cases hc : r.quantity = none ∧ sameProductQuantities t0 r.productID ≠ []
  · rw [if_pos hc]
  · rw [if_neg hc]

theorem fixRow_fields (z : Row) :
    ((if z.salesperson = none ∨ z.salesperson = some ""
        then {z with salesperson := some "Unknown"} else z) : Row).productID
        = z.productID
    ∧ ((if z.salesperson = none ∨ z.salesperson = some ""
        then {z with salesperson := some "Unknown"} else z) : Row).quantity
        = z.quantity
    ∧ ((if z.salesperson = none ∨ z.salesperson = some ""
        then {z with salesperson := some "Unknown"} else z) : Row).unitPrice
        = z.unitPrice
    ∧ ((if z.salesperson = none ∨ z.salesperson = some ""
        then {z with salesperson := some "Unknown"} else z) : Row).totalPrice
        = z.totalPrice := by
  by_cases hc : z.salesperson = none ∨ z.salesperson = some ""
  · rw [if_pos hc]
    exact ⟨rfl, rfl, rfl, rfl⟩
  · rw [if_neg hc]
    exact ⟨rfl, rfl, rfl, rfl⟩

/-- A row of the final cleaned table comes from a row of the imputed table,
with ProductID, Quantity, UnitPrice preserved and TotalPrice recomputed. -/
theorem mem_final_stage {l : List Row} {r : Row}
    (hr : r ∈ fixSalesperson (recomputeTotals l)) :
    ∃ y ∈ l, r.productID = y.productID ∧ r.quantity = y.quantity ∧
      r.unitPrice = y.unitPrice ∧
      r.totalPrice = y.quantity.map (fun q => q * y.unitPrice) := by
  unfold fixSalesperson at hr
  rw [List.mem_map] at hr
  obtain ⟨z, hz, hrz⟩ := hr
  unfold recomputeTotals at hz
  rw [List.mem_map] at hz
  obtain ⟨y, hy, hzy⟩ := hz
  subst hzy
  subst hrz
  obtain ⟨h1, h2, h3, h4⟩ :=
    fixRow_fields {y with totalPrice := y.quantity.map fun q => q * y.unitPrice}
  exact ⟨y, hy, h1, h2, h3, h4⟩

theorem getElem?_final_quantity (l : List Row) (i : ℕ) (r : Row)
    (h : l[i]? = some r) :
    ∃ r2, (fixSalesperson (recomputeTotals l))[i]? = some r2 ∧
      r2.quantity = r.quantity := by
  unfold fixSalesperson recomputeTotals
  rw [List.getElem?_map, List.getElem?_map, h]
  refine ⟨_, rfl, ?_⟩
  exact (fixRow_fields {r with totalPrice := r.quantity.map fun q => q * r.unitPrice}).2.1

/-! ### The claims -/

/-- **C1**: for every input table, when the cleaning stage completes, no
row of the cleaned table has the placeholder ProductID `"P0000"`, and every
row's TotalPrice equals its Quantity multiplied by its UnitPrice (a missing
Quantity gives a missing TotalPrice). -/
theorem c1_clean_invariants (t : List RawRow) (out : List Row)
    (hclean : cleanTable t = some out) :
    ∀ r ∈ out, r.productID ≠ "P0000" ∧
      r.totalPrice = r.quantity.map (fun q => q * r.unitPrice) := by
  cases hp : preImputeTable t with
  | none =>
    unfold cleanTable at hclean
    rw [hp] at hclean
    exact absurd hclean (by simp)
  | some mid =>
    have hout := cleanTable_eq_spec t mid hp
    rw [hclean] at hout
    have houte := Option.some.inj hout
    intro r hr
    rw [houte] at hr
    obtain ⟨y, hy, hpid, hq, hu, htp⟩ := mem_final_stage hr
    constructor
    · rw [hpid]
      rw [List.mem_map] at hy
      obtain ⟨x, hx, hxy⟩ := hy
      rw [← hxy, imputeRowSpec_productID]
      cases hparse : parseRows (fixDates t) with
      | none =>
        unfold preImputeTable at hp
        rw [hparse] at hp
        exact absurd hp (by simp)
      | some rows0 =>
        unfold preImputeTable at hp
        rw [hparse, Option.map_some'] at hp
        have hmid := Option.some.inj hp
        rw [← hmid] at hx
        unfold dropInvalidProducts at hx
        rw [List.mem_filter] at hx
        simpa using hx.2
    · rw [htp, hq, hu]

/-- C1 witness: the invariant evaluated on a concrete one-row table. -/
theorem c1_witness :
    cleanTable w1Table = some [w1OutRow] ∧ w1OutRow.productID ≠ "P0000" ∧
      w1OutRow.totalPrice = w1OutRow.quantity.map (fun q => q * w1OutRow.unitPrice) :=
  ⟨rfl,
    (c1_clean_invariants w1Table [w1OutRow] rfl w1OutRow (List.mem_cons_self _ _)).1,
    (c1_clean_invariants w1Table [w1OutRow] rfl w1OutRow (List.mem_cons_self _ _)).2⟩

/-- **C4**: every row that reaches the imputation step with a missing
Quantity whose product has at least one other row with a non-missing
Quantity ends up with the rounded mean of those other same-product
quantities. -/
theorem c4_quantity_imputation (t : List RawRow) (mid out : List Row)
    (i : ℕ) (r : Row) (hmid : preImputeTable t = some mid)
    (hclean : cleanTable t = some out) (hr : mid[i]? = some r)
    (hq : r.quantity = none)
    (hpeers : sameProductQuantities mid r.productID ≠ []) :
    ∃ r2, out[i]? = some r2 ∧
      r2.quantity = some ((pythonRound
        ((sameProductQuantities mid r.productID).sum /
          ((sameProductQuantities mid r.productID).length : ℚ)) : ℤ) : ℚ) := by
  have hout := cleanTable_eq_spec t mid hmid
  rw [hclean] at hout
  have houte := Option.some.inj hout
  have hmi : (mid.map (imputeRowSpec mid))[i]? = some (imputeRowSpec mid r) := by
    rw [List.getElem?_map, hr]
    rfl
  obtain ⟨r2, hr2, hq2⟩ :=
    getElem?_final_quantity (mid.map (imputeRowSpec mid)) i _ hmi
  refine ⟨r2, by rw [houte]; exact hr2, ?_⟩
  rw [hq2]
  unfold imputeRowSpec
  rw [if_pos ⟨hq, hpeers⟩]
  rfl

/-- C4 witness: the spec's scenario — product `"P1001"`, peer quantities
`[4, 6]`, blank row imputed to `round(5.0) = 5`. -/
theorem c4_witness :
    cleanTable c4Table = some c4Out ∧
      (c4Out[2]?).map (fun r => r.quantity) = some (some 5) := by
  refine ⟨rfl, ?_⟩
  obtain ⟨r2, hr2, hq2⟩ :=
    c4_quantity_imputation c4Table c4Mid c4Out 2 c4MidC rfl rfl rfl rfl
      (by decide)
  rw [hr2, Option.map_some', hq2]
  have hlist : sameProductQuantities c4Mid c4MidC.productID = [(4:ℚ), 6] := rfl
  rw [hlist]
  have hmean : ([(4:ℚ), 6]).sum / ((([(4:ℚ), 6]).length : ℕ) : ℚ) = ((5:ℤ) : ℚ) := by
    simp
    norm_num
  rw [hmean, pythonRound_intCast]
  norm_num

/-- **C5** (corrected): there is no `EmptyDatasetError` in the code.  On an
empty validated table the aggregation stage *succeeds*, computing zero
totals, a missing (NaN) mean and empty grouped tables; shown here together
with a concrete input whose cleaned table is empty. -/
theorem c5_counterexample :
    cleanTable c5Table = some [] ∧
      analyzeData [] = ⟨⟨0, 0, none, 0, none, none⟩, [], [], [], [], [], []⟩ :=
  ⟨rfl, rfl⟩

/-- C5 amended: with zero validated rows the aggregation stage does not
fail — it returns zero/empty aggregates — and the run aborts only later,
in the report renderer (reading `date_range`/`index[0]` of empty data). -/
theorem c5_empty_aggregation (t : List RawRow) (now : String)
    (h : cleanTable t = some []) :
    analyzeData [] = ⟨⟨0, 0, none, 0, none, none⟩, [], [], [], [], [], []⟩ ∧
      generateWordReport (analyzeData []) now = none ∧
      runFullPipeline t now = none := by
  refine ⟨rfl, rfl, ?_⟩
  unfold runFullPipeline
  rw [h]
  rfl

/-- C5 witness: the amended behaviour at a concrete input (a table whose
only row carries the placeholder ProductID). -/
theorem c5_witness :
    analyzeData [] = ⟨⟨0, 0, none, 0, none, none⟩, [], [], [], [], [], []⟩ ∧
      generateWordReport (analyzeData []) "2025-09-22 10:00" = none ∧
      runFullPipeline c5Table "2025-09-22 10:00" = none :=
  c5_empty_aggregation c5Table "2025-09-22 10:00" rfl

/-- **C6** (corrected): with a missing attachment the notifier hits its
internal file-not-found error before any SMTP connection, but the catch-all
handler swallows it: the caller sees `False`, not an exception. -/
theorem c6_attachment_missing (fs : List String) (path : String) (ok : Bool)
    (h : path ∉ fs) :
    (sendInner fs path ok).1
        = Except.error (EmailError.attachmentNotFound path) ∧
      sendEmailWithReport fs path ok = (false, false) := by
  unfold sendEmailWithReport sendInner
  rw [if_neg h]
  exact ⟨rfl, rfl⟩

/-- C6 counterexample: at a concrete missing path the notifier *returns*
`(false, no-connection)`; the attachment error is not raised to the
caller. -/
theorem c6_counterexample :
    sendEmailWithReport [] "report_sales_report.docx" true = (false, false) ∧
      (sendInner [] "report_sales_report.docx" true).1
        = Except.error (EmailError.attachmentNotFound "report_sales_report.docx") := by
  exact ⟨rfl, rfl⟩

/-- C6 witness: the amended behaviour at a concrete input. -/
theorem c6_witness :
    (sendInner ["other.docx"] "report.docx" true).1
        = Except.error (EmailError.attachmentNotFound "report.docx") ∧
      sendEmailWithReport ["other.docx"] "report.docx" true = (false, false) :=
  c6_attachment_missing ["other.docx"] "report.docx" true (by decide)

/-- **C7**: in the environment-configured branch of `main`, a sender
address failing the regex validation aborts the delivery step before any
SMTP connection, and the already-written report file is still on disk. -/
theorem c7_invalid_sender (csv se re now : String) (fs0 : List String)
    (t : List RawRow) (ok : Bool) (out : MainResult)
    (hrun : mainEnvRun csv se re fs0 t now ok = some out)
    (hbad : emailMatch se = false) :
    out.emailAttempted = false ∧ out.smtpConnected = false ∧
      docxPath csv ∈ out.fs := by
  unfold mainEnvRun at hrun
  cases hp : runFullPipeline t now with
  | none =>
    rw [hp] at hrun
    exact absurd hrun (by simp)
  | some res =>
    rw [hp, Option.map_some'] at hrun
    have hcond : ¬ (emailMatch se = true) := by rw [hbad]; simp
    rw [if_pos hcond] at hrun
    have := Option.some.inj hrun
    rw [← this]
    exact ⟨rfl, rfl, List.mem_cons_self _ _⟩

/-- C7 witness: a sender without `'@'` at concrete inputs — no connection
attempt, report path still present. -/
theorem c7_witness :
    mainEnvRun "references/cicd_data.csv" "invalid-sender" "boss@example.com"
        [] w1Table "2025-09-22" true = some c7Out ∧
      c7Out.emailAttempted = false ∧ c7Out.smtpConnected = false ∧
      docxPath "references/cicd_data.csv" ∈ c7Out.fs := by
  refine ⟨rfl, ?_⟩
  exact c7_invalid_sender "references/cicd_data.csv" "invalid-sender"
    "boss@example.com" "2025-09-22" [] w1Table true c7Out rfl (by decide)

/-- **C8**: the load–clean–analyze results are a deterministic function of
the input table; the wall-clock timestamp fed to the renderer never
influences the analysis results, so two runs on the same input agree on
every aggregate. -/
theorem c8_deterministic_aggregates (t : List RawRow) (now1 now2 : String) :
    (runFullPipeline t now1).map Prod.fst
      = (runFullPipeline t now2).map Prod.fst := by
  unfold runFullPipeline
  cases hc : cleanTable t with
  | none => rfl
  | some rows =>
    show ((generateWordReport (analyzeData rows) now1).map _).map Prod.fst
      = ((generateWordReport (analyzeData rows) now2).map _).map Prod.fst
    unfold generateWordReport
    cases (analyzeData rows).basic.dateStart <;>
      cases (analyzeData rows).basic.dateEnd <;>
      cases (analyzeData rows).categoryAnalysis <;>
      cases (analyzeData rows).regionAnalysis <;>
      cases (analyzeData rows).salespersonAnalysis <;>
      cases (analyzeData rows).topProducts <;>
      rfl

/-- **C9**: the report path replaces every occurrence of `".csv"` in the
input path by `"_sales_report.docx"`; a path with no `".csv"` maps to
itself (the report overwrites the input file), and a path with two
occurrences gets both replaced. -/
theorem c9_report_path :
    (∀ s : String, hasCsv s.data = false → docxPath s = s) ∧
      docxPath "data.csv.csv" = "data_sales_report.docx_sales_report.docx" := by
  constructor
  · intro s h
    unfold docxPath
    rw [replaceCsv_eq_self s.data h]
  · rfl

/-- C9 witness: a path without `".csv"` is used as the report path
unchanged. -/
theorem c9_witness : docxPath "report" = "report" :=
  c9_report_path.1 "report" (by decide)

/-- **C2** (amended): the partition identity holds for the *unrounded*
group revenues: summing the raw per-category revenues over the category
groups, or the raw per-region revenues over the region groups, gives
exactly the scalar total revenue (the tables themselves hold these values
rounded to two decimals, which breaks the exact identity — see the
counterexample). -/
theorem c2_revenue_partition (rows : List Row) :
    ((sortedKeys rows (fun r => r.category) strLeB).map
        (rawGroupRevenue rows (fun r => r.category))).sum
      = (analyzeData rows).basic.totalSales
    ∧ ((sortedKeys rows (fun r => r.region) strLeB).map
        (rawGroupRevenue rows (fun r => r.region))).sum
      = (analyzeData rows).basic.totalSales
    ∧ ((sortedKeys rows (fun r => r.category) strLeB).map
        (rawGroupRevenue rows (fun r => r.category))).sum
      = ((sortedKeys rows (fun r => r.region) strLeB).map
        (rawGroupRevenue rows (fun r => r.region))).sum := by
  have h1 := sum_rawGroupRevenue rows (fun r => r.category) strLeB
  have h2 := sum_rawGroupRevenue rows (fun r => r.region) strLeB
  exact ⟨h1, h2, h1.trans h2.symm⟩

/-- C2 counterexample: with sub-cent prices the *rounded* per-category
revenues sum to `0`, the rounded per-region revenues to `1/100`, while the
scalar total revenue is `1/125`: the three quantities of the claim are
pairwise different on this concrete cleaned table. -/
theorem c2_counterexample :
    cleanTable c2Table = some c2Out ∧
    ((analyzeData c2Out).categoryAnalysis.map (fun a => a.revenue)).sum = 0 ∧
    ((analyzeData c2Out).regionAnalysis.map (fun a => a.revenue)).sum = 1/100 ∧
    (analyzeData c2Out).basic.totalSales = 1/125 ∧
    ¬ (((analyzeData c2Out).categoryAnalysis.map (fun a => a.revenue)).sum
        = ((analyzeData c2Out).regionAnalysis.map (fun a => a.revenue)).sum ∧
      ((analyzeData c2Out).regionAnalysis.map (fun a => a.revenue)).sum
        = (analyzeData c2Out).basic.totalSales) := by
  have hr0 : round2 (1 * ((1:ℚ)/250) + 0) = 0 := by
    unfold round2
    have h00 : pythonRound ((1 * ((1:ℚ)/250) + 0) * 100) = 0 :=
      pythonRound_eq_low 0 _ (by norm_num) (by norm_num)
    rw [h00]
    norm_num
  have hr1 : round2 (1 * ((1:ℚ)/250) + (1 * ((1:ℚ)/250) + 0)) = 1/100 := by
    unfold round2
    have h01 : pythonRound ((1 * ((1:ℚ)/250) + (1 * ((1:ℚ)/250) + 0)) * 100) = 1 :=
      pythonRound_eq_high 1 _ (by norm_num) (by norm_num)
    rw [h01]
    norm_num
  have hcat : ((analyzeData c2Out).categoryAnalysis.map (fun a => a.revenue)).sum = 0 := by
    have hperm : ((sortLe revLe (groupTable c2Out (fun r => r.category) strLeB)).map
          (fun a : AggRow String => a.revenue)).sum
        = ((groupTable c2Out (fun r => r.category) strLeB).map
          (fun a : AggRow String => a.revenue)).sum :=
      (((sortLe_perm revLe (groupTable c2Out (fun r => r.category) strLeB)).map
        (fun a : AggRow String => a.revenue))).sum_eq
    show ((sortLe revLe (groupTable c2Out (fun r => r.category) strLeB)).map
        (fun a : AggRow String => a.revenue)).sum = 0
    rw [hperm]
    have hkeysC : sortedKeys c2Out (fun r => r.category) strLeB = ["A", "B"] := by
      decide
    have hgt : groupTable c2Out (fun r => r.category) strLeB
        = [groupAgg c2Out (fun r => r.category) "A",
           groupAgg c2Out (fun r => r.category) "B"] := by
      unfold groupTable
      rw [hkeysC, List.map_cons, List.map_cons, List.map_nil]
    rw [hgt]
    have hA : (groupAgg c2Out (fun r => r.category) "A").revenue
        = round2 (1 * ((1:ℚ)/250) + 0) := rfl
    have hB : (groupAgg c2Out (fun r => r.category) "B").revenue
        = round2 (1 * ((1:ℚ)/250) + 0) := rfl
    simp only [List.map_cons, List.map_nil, List.sum_cons, List.sum_nil, hA, hB, hr0]
    norm_num
  have hreg : ((analyzeData c2Out).regionAnalysis.map (fun a => a.revenue)).sum = 1/100 := by
    have hperm : ((sortLe revLe (groupTable c2Out (fun r => r.region) strLeB)).map
          (fun a : AggRow String => a.revenue)).sum
        = ((groupTable c2Out (fun r => r.region) strLeB).map
          (fun a : AggRow String => a.revenue)).sum :=
      (((sortLe_perm revLe (groupTable c2Out (fun r => r.region) strLeB)).map
        (fun a : AggRow String => a.revenue))).sum_eq
    show ((sortLe revLe (groupTable c2Out (fun r => r.region) strLeB)).map
        (fun a : AggRow String => a.revenue)).sum = 1/100
    rw [hperm]
    have hkeysR : sortedKeys c2Out (fun r => r.region) strLeB = ["X"] := by
      decide
    have hgt : groupTable c2Out (fun r => r.region) strLeB
        = [groupAgg c2Out (fun r => r.region) "X"] := by
      unfold groupTable
      rw [hkeysR, List.map_cons, List.map_nil]
    rw [hgt]
    have hX : (groupAgg c2Out (fun r => r.region) "X").revenue
        = round2 (1 * ((1:ℚ)/250) + (1 * ((1:ℚ)/250) + 0)) := rfl
    simp only [List.map_cons, List.map_nil, List.sum_cons, List.sum_nil, hX, hr1]
    norm_num
  have htot : (analyzeData c2Out).basic.totalSales = 1/125 := by
    show (1 * ((1:ℚ)/250) + (1 * ((1:ℚ)/250) + 0)) = 1/125
    norm_num
  refine ⟨rfl, hcat, hreg, htot, ?_⟩
  rintro ⟨ha, -⟩
  rw [hcat, hreg] at ha
  norm_num at ha

/-- **C10** (corrected): the imputation loop is sequential and mutating —
the mean for a later missing row does include earlier imputed values — but
its net effect is the order-free map `imputeRowSpec`, so the cleaned table
(and with it every imputed value) does not depend on the input row order:
permuting the input permutes the cleaned rows. -/
theorem c10_order_independence :
    (∀ t0 : List Row, imputeQuantities t0 = t0.map (imputeRowSpec t0)) ∧
      ∀ t u : List RawRow, t.Perm u → optionPerm (cleanTable t) (cleanTable u) :=
  ⟨imputeQuantities_eq_map, fun _ _ h => cleanTable_perm h⟩

/-- C10 witness: order independence applied to a concrete transposition. -/
theorem c10_witness :
    optionPerm (cleanTable [c10B, c10A, c10C]) (cleanTable c10Table) :=
  c10_order_independence.2 _ _ (List.Perm.swap c10A c10B [c10C])

/-- C10 counterexample: on the claim's own configuration — one product with
two missing-quantity rows — every one of the six input orders yields the
same cleaned rows (both blanks imputed to `4`, the mean of the one known
quantity), refuting the claimed dependence on row order. -/
theorem c10_counterexample :
    (cleanTable c10Table = some c10Out ∧
      c10Out.map (fun r => (r.orderID, r.quantity))
        = [("O1", some 4), ("O2", some 4), ("O3", some 4)]) ∧
    optionPerm (cleanTable [c10B, c10A, c10C]) (cleanTable c10Table) ∧
    optionPerm (cleanTable [c10B, c10C, c10A]) (cleanTable c10Table) ∧
    optionPerm (cleanTable [c10A, c10C, c10B]) (cleanTable c10Table) ∧
    optionPerm (cleanTable [c10C, c10A, c10B]) (cleanTable c10Table) ∧
    optionPerm (cleanTable [c10C, c10B, c10A]) (cleanTable c10Table) := by
  have hval : imputeValue c10Mid "P1001" = 4 := by
    show ((pythonRound ((sameProductQuantities c10Mid "P1001").sum /
        ((sameProductQuantities c10Mid "P1001").length : ℚ)) : ℤ) : ℚ) = 4
    have hlist : sameProductQuantities c10Mid "P1001" = [(4:ℚ)] := rfl
    rw [hlist]
    have hmean : ([(4:ℚ)]).sum / ((([(4:ℚ)]).length : ℕ) : ℚ) = ((4:ℤ) : ℚ) := by
      simp
    rw [hmean, pythonRound_intCast]
    norm_num
  have hA : imputeRowSpec c10Mid c10MidA = c10MidA := by
    unfold imputeRowSpec
    rw [if_neg]
    rintro ⟨h, -⟩
    exact Option.noConfusion h
  have hB : imputeRowSpec c10Mid c10MidB = {c10MidB with quantity := some 4} := by
    unfold imputeRowSpec
    rw [if_pos ⟨rfl, by decide⟩]
    rw [show c10MidB.productID = "P1001" from rfl, hval]
    rfl
  have hC : imputeRowSpec c10Mid c10MidC = {c10MidC with quantity := some 4} := by
    unfold imputeRowSpec
    rw [if_pos ⟨rfl, by decide⟩]
    rw [show c10MidC.productID = "P1001" from rfl, hval]
    rfl
  have p1 : List.Perm [c10B, c10A, c10C] c10Table := List.Perm.swap c10A c10B [c10C]
  have p2 : List.Perm [c10B, c10C, c10A] c10Table :=
    ((List.Perm.swap c10A c10C []).cons c10B).trans (List.Perm.swap c10A c10B [c10C])
  have p3 : List.Perm [c10A, c10C, c10B] c10Table :=
    (List.Perm.swap c10B c10C []).cons c10A
  have p4 : List.Perm [c10C, c10A, c10B] c10Table :=
    (List.Perm.swap c10A c10C [c10B]).trans p3
  have p5 : List.Perm [c10C, c10B, c10A] c10Table :=
    (List.Perm.swap c10B c10C [c10A]).trans p2
  refine ⟨⟨rfl, ?_⟩, cleanTable_perm p1, cleanTable_perm p2, cleanTable_perm p3,
    cleanTable_perm p4, cleanTable_perm p5⟩
  show (fixSalesperson (recomputeTotals (imputeQuantities c10Mid))).map
      (fun r => (r.orderID, r.quantity))
    = [("O1", some 4), ("O2", some 4), ("O3", some 4)]
  rw [imputeQuantities_eq_map]
  show (fixSalesperson (recomputeTotals
      ([c10MidA, c10MidB, c10MidC].map (imputeRowSpec c10Mid)))).map
      (fun r => (r.orderID, r.quantity))
    = [("O1", some 4), ("O2", some 4), ("O3", some 4)]
  rw [List.map_cons, List.map_cons, List.map_cons, List.map_nil, hA, hB, hC]
  rfl

end SalesAnalysis
